/-
  Verification of the layout / time-scale / interaction core of
  react-timeseries-charts, shallowly embedded from
  `src/components/ChartContainer.js` (layout engine, time scale, row
  offsets, tracker) and, where the implementation is absent from the
  sources (EventHandler), modelled from the specification.

  JS numbers are modelled as ℚ where geometry is continuous (time scale,
  pixel positions) and as ℕ where the code only ever sees non-negative
  pixel widths / heights.
-/
import Mathlib

namespace RTSC

/-! ## Row items

A `ChartRow`'s children, as the layout loop in `ChartContainer.render`
sees them: the `<Charts>` tag (the plot slot), `<Brush>`/`<MultiBrush>`
(skipped by the width loop), and axis children carrying an optional
declared width (`none` models an absent or non-numeric `width` prop)
and a `visible` flag. -/

inductive RowItem : Type where
  | charts : RowItem
  | brush : RowItem
  | axis (width : Option ℕ) (visible : Bool) : RowItem
deriving DecidableEq, Repr

/-- Effective width of an axis child:
`let width = Number(child.props.width) || 40; if (!visible) width = 0;`
(`Number(undefined)`, `NaN` and `0` are all falsy, hence default to 40). -/
def effWidth (width : Option ℕ) (visible : Bool) : ℕ :=
  let base := match width with
    | some n => if n = 0 then 40 else n
    | none => 40
  if visible then base else 0

/-- First counting pass of the row loop: number of `<Charts>` children. -/
def countCharts : List RowItem → ℕ
  | [] => 0
  | .charts :: rest => countCharts rest + 1
  | _ :: rest => countCharts rest

/-- First counting pass of the row loop: number of axis children seen while
`align === "left"`, i.e. before the first `<Charts>` child. -/
def countLeft : List RowItem → ℕ
  | [] => 0
  | .charts :: _ => 0
  | .brush :: rest => countLeft rest
  | .axis _ _ :: rest => countLeft rest + 1

/-- Pad a list with zeros up to length `n` (JS arrays grow on assignment;
holes read back as falsy, which the width loop treats as 0). -/
def padTo (l : List ℕ) (n : ℕ) : List ℕ :=
  l ++ List.replicate (n - l.length) 0

/-- `arr[pos] = arr[pos] ? Math.max(width, arr[pos]) : width` on a JS array.
A negative index writes a non-index property, invisible to the later
`_.reduce`, hence a no-op in this model. -/
def setMax (l : List ℕ) (pos : ℤ) (w : ℕ) : List ℕ :=
  if 0 ≤ pos then
    (padTo l (pos.toNat + 1)).set pos.toNat (max (l.getD pos.toNat 0) w)
  else l

/-- Which side of the `<Charts>` tag the loop is currently on. -/
inductive Side : Type where
  | left : Side
  | right : Side
deriving DecidableEq, Repr

/-- Second pass of the row loop: walks the row's children, accumulating
axis widths into the shared `leftAxisWidths` / `rightAxisWidths` arrays.
`pos` starts at `countLeft - 1`, decrements on the left, resets to 0 at
the `<Charts>` tag and increments on the right. -/
def processItems : Side → ℤ → List RowItem → List ℕ × List ℕ → List ℕ × List ℕ
  | _, _, [], acc => acc
  | _, _, .charts :: rest, acc => processItems .right 0 rest acc
  | align, pos, .brush :: rest, acc => processItems align pos rest acc
  | align, pos, .axis w v :: rest, (L, R) =>
    match align with
    | .left => processItems .left (pos - 1) rest (setMax L pos (effWidth w v), R)
    | .right => processItems .right (pos + 1) rest (L, setMax R pos (effWidth w v))

/-- Accumulate one row into the width arrays (the body of the outer
`React.Children.forEach` after the `countCharts` check). -/
def processRow (acc : List ℕ × List ℕ) (row : List RowItem) : List ℕ × List ℕ :=
  processItems .left ((countLeft row : ℤ) - 1) row acc

/-- The whole width-accumulation loop over all rows.  A row whose
`countCharts` is not exactly 1 hits `invariant(false, msg)`, which throws
and aborts the entire render: modelled as `Except.error`. -/
def computeAxisWidthsGo (acc : List ℕ × List ℕ) :
    List (List RowItem) → Except String (List ℕ × List ℕ)
  | [] => .ok acc
  | row :: rest =>
    if countCharts row ≠ 1 then
      .error "ChartRow should have one and only one <Charts> tag within it"
    else
      computeAxisWidthsGo (processRow acc row) rest

/-- `leftAxisWidths` / `rightAxisWidths` for a list of rows. -/
def computeAxisWidths (rows : List (List RowItem)) :
    Except String (List ℕ × List ℕ) :=
  computeAxisWidthsGo ([], []) rows

/-! ## Specification-side vocabulary for the width arrays -/

/-- Effective widths of the axis children before the first `<Charts>`
tag, in declared (outermost-first) order. -/
def leftAxes : List RowItem → List ℕ
  | [] => []
  | .charts :: _ => []
  | .brush :: rest => leftAxes rest
  | .axis w v :: rest => effWidth w v :: leftAxes rest

/-- Effective widths of the axis children strictly after the first
`<Charts>` tag, in declared order (position 0 = adjacent to the plot). -/
def afterCharts : List RowItem → List ℕ
  | [] => []
  | .charts :: rest => afterCharts rest
  | .brush :: rest => afterCharts rest
  | .axis w v :: rest => effWidth w v :: afterCharts rest

/-- Right-of-plot effective widths of a row. -/
def rightAxes : List RowItem → List ℕ
  | [] => []
  | .charts :: rest => afterCharts rest
  | _ :: rest => rightAxes rest

/-- A row's left slot width at distance `pos` from the plot slot
(0 when the row has no slot there): position 0 is the slot immediately
left of the plot, i.e. the last declared left axis. -/
def rowLeftWidth (row : List RowItem) (pos : ℕ) : ℕ :=
  (leftAxes row).reverse.getD pos 0

/-- A row's right slot width at distance `pos` from the plot slot. -/
def rowRightWidth (row : List RowItem) (pos : ℕ) : ℕ :=
  (rightAxes row).getD pos 0

/-- Maximum of `f` over a list of rows (0 for the empty list). -/
def maxOver (rows : List (List RowItem)) (f : List RowItem → ℕ) : ℕ :=
  (rows.map f).foldr max 0

/-- Replace the declared width of every invisible axis child by `none`
(used to state that an invisible slot's declared width is irrelevant). -/
def normWidth : RowItem → RowItem
  | .axis w true => .axis w true
  | .axis _ false => .axis none false
  | x => x

/-- The spec's scenario row `[leftAxis(40), plot, rightAxis(30)]`. -/
def demoRow1 : List RowItem :=
  [.axis (some 40) true, .charts, .axis (some 30) true]

/-- The spec's scenario row `[leftAxis(25), leftAxis(40), plot]`. -/
def demoRow2 : List RowItem :=
  [.axis (some 25) true, .axis (some 40) true, .charts]

/-! ## Time range and time scale -/

/-- A pond `TimeRange`: a pair of instants in epoch milliseconds
(modelled as ℚ).  The pond constructor stores the endpoints as given. -/
structure TimeRange : Type where
  begin : ℚ
  endTime : ℚ
deriving DecidableEq, Repr

/-- `timeRange.contains(t)` in pond: inclusive containment. -/
def TimeRange.containsT (tr : TimeRange) (t : ℚ) : Bool :=
  decide (tr.begin ≤ t ∧ t ≤ tr.endTime)

/-- A d3 linear time scale, determined by a two-point domain
`[d0, d1]` and a two-point range `[r0, r1]`. -/
structure Scale : Type where
  d0 : ℚ
  d1 : ℚ
  r0 : ℚ
  r1 : ℚ
deriving DecidableEq, Repr

/-- `scale(t)`: linear interpolation from domain to range. -/
def Scale.applyS (s : Scale) (t : ℚ) : ℚ :=
  s.r0 + (t - s.d0) / (s.d1 - s.d0) * (s.r1 - s.r0)

/-- `scale.invert(x)`: linear interpolation from range back to domain. -/
def Scale.invertS (s : Scale) (x : ℚ) : ℚ :=
  s.d0 + (x - s.r0) / (s.r1 - s.r0) * (s.d1 - s.d0)

/-- `scaleTime().domain(timeRange.toJSON()).range([0, timeAxisWidth])`
(`scaleUtc` yields the same linear mapping; the `utc` flag only affects
downstream tick generation). -/
def mkTimeScale (tr : TimeRange) (w : ℚ) : Scale :=
  ⟨tr.begin, tr.endTime, 0, w⟩

/-- The time-scale construction step of `ChartContainer.render`: the only
guard is `if (!this.props.timeRange) throw Error(...)`; neither a
non-positive pixel width nor an inverted time range is checked. -/
def computeTimeScale (timeRange : Option TimeRange) (w : ℚ) (utc : Bool) :
    Except String Scale :=
  match timeRange with
  | none => .error "Invalid timerange passed to ChartContainer"
  | some tr => .ok (if utc then mkTimeScale tr w else mkTimeScale tr w)

/-! ## The layout pipeline of `ChartContainer.render` -/

/-- The geometry and scale `render` computes before building the rows. -/
structure LayoutOutput : Type where
  leftAxisWidths : List ℕ
  rightAxisWidths : List ℕ
  leftWidth : ℕ
  rightWidth : ℕ
  timeAxisWidth : ℚ
  timeScale : Scale
deriving DecidableEq, Repr

/-- The layout portion of `render`, in source order: accumulate the axis
width arrays (aborting on a malformed row), sum them, compute
`timeAxisWidth = width - leftWidth - rightWidth - paddingLeft -
paddingRight`, check the time range, and build the scale. -/
def renderLayout (timeRange : Option TimeRange) (width paddingLeft paddingRight : ℚ)
    (utc : Bool) (rows : List (List RowItem)) : Except String LayoutOutput :=
  match computeAxisWidths rows with
  | .error e => .error e
  | .ok (lws, rws) =>
    match computeTimeScale timeRange
        (width - lws.sum - rws.sum - paddingLeft - paddingRight) utc with
    | .error e => .error e
    | .ok scale =>
      .ok ⟨lws, rws, lws.sum, rws.sum,
        width - lws.sum - rws.sum - paddingLeft - paddingRight, scale⟩

/-! ## Row offsets -/

/-- A `ChartRow` as the vertical-stacking loop sees it: a declared
pixel height (`parseInt(child.props.height, 10)`) and a visibility flag. -/
structure RowSpec : Type where
  height : ℕ
  visible : Bool
deriving DecidableEq, Repr

/-- The `yPosition` loop of `render`: each row's transform uses the
current `yPosition`; only a visible row's height is added afterwards. -/
def rowOffsetsGo (y : ℕ) : List RowSpec → List ℕ
  | [] => []
  | r :: rest => y :: rowOffsetsGo (if r.visible then y + r.height else y) rest

/-- Vertical offset assigned to each row, in declaration order. -/
def rowOffsets (rows : List RowSpec) : List ℕ :=
  rowOffsetsGo 0 rows

/-- Final `yPosition` (= `chartsHeight`): sum of visible rows' heights. -/
def totalHeight (rows : List RowSpec) : ℕ :=
  rows.foldl (fun y r => if r.visible then y + r.height else y) 0

/-! ## Hover tracker -/

/-- The tracker group's data: its x translation `leftWidth + paddingLeft`. -/
structure TrackerMarker : Type where
  translateX : ℚ
deriving DecidableEq, Repr

/-- The tracker guard in `render`:
`if (this.props.trackerPosition && this.props.timeRange.contains(this.props.trackerPosition))`. -/
def trackerOf (trackerPosition : Option ℚ) (tr : TimeRange)
    (leftWidth paddingLeft : ℚ) : Option TrackerMarker :=
  match trackerPosition with
  | none => none
  | some t => if tr.containsT t then some ⟨leftWidth + paddingLeft⟩ else none

/-! ## Interaction transitions

The `EventHandler` implementation is not among the sources (only its
type declarations in `EventHandler.d.ts` are), so the transitions are
modelled from the specification's §4.2. -/

/-- Interaction configuration: `minDuration`, `minTime`, `maxTime`. -/
structure InteractionConfig : Type where
  minDuration : Option ℚ
  minTime : Option ℚ
  maxTime : Option ℚ
deriving DecidableEq, Repr

/-- Modelled from the spec: out-of-bounds candidates are "rigidly
translated (not truncated) so [the range] stays within bounds while
preserving its duration" — first pushed right of `minTime`, then pushed
left of `maxTime`. -/
def clampRigid (cfg : InteractionConfig) (b e : ℚ) : ℚ × ℚ :=
  let d := e - b
  let p1 : ℚ × ℚ := match cfg.minTime with
    | some m => if b < m then (m, m + d) else (b, e)
    | none => (b, e)
  match cfg.maxTime with
  | some mx => if p1.2 > mx then (mx - d, mx) else p1
  | none => p1

/-- Modelled from the spec: pan move.  `shift = invert(anchorX) −
invert(currentX)`; the candidate is the anchor range shifted by `shift`,
then rigidly translated (duration preserved) back inside the configured
`minTime`/`maxTime` bounds. -/
def panMove (cfg : InteractionConfig) (anchor : TimeRange)
    (anchorX currentX : ℚ) (s : Scale) : TimeRange :=
  let shift := s.invertS anchorX - s.invertS currentX
  let p := clampRigid cfg (anchor.begin + shift) (anchor.endTime + shift)
  ⟨p.1, p.2⟩

/-- Modelled from the spec: zoom-box commit on pointer-up.  The range
between `invert(anchorX)` and `invert(currentX)` is order-normalized; it
is committed only when the pixel delta exceeds the drag threshold and the
duration is at least the configured `minDuration`, otherwise the commit
is a no-op (`none`). -/
def zoomBoxCommit (cfg : InteractionConfig) (anchorX currentX : ℚ)
    (s : Scale) (threshold : ℚ) : Option TimeRange :=
  if |currentX - anchorX| ≤ threshold then none
  else
    match cfg.minDuration with
    | some m =>
      if max (s.invertS anchorX) (s.invertS currentX)
          - min (s.invertS anchorX) (s.invertS currentX) < m then none
      else some ⟨min (s.invertS anchorX) (s.invertS currentX),
        max (s.invertS anchorX) (s.invertS currentX)⟩
    | none => some ⟨min (s.invertS anchorX) (s.invertS currentX),
        max (s.invertS anchorX) (s.invertS currentX)⟩

/-- Modelled from the spec: the wheel-zoom candidate duration — the
current duration scaled by the zoom factor, clamped below by
`minDuration` when configured. -/
def zoomDuration (cfg : InteractionConfig) (d factor : ℚ) : ℚ :=
  match cfg.minDuration with
  | some m => max (d * factor) m
  | none => d * factor

/-- Modelled from the spec: wheel zoom.  The current range is scaled by
`factor` around the time under the cursor (that instant keeps its
fractional position), the new duration is clamped to at least
`minDuration`, and the result is rigidly translated back inside the
configured `minTime`/`maxTime` bounds. -/
def wheelZoom (cfg : InteractionConfig) (cur : TimeRange) (x : ℚ)
    (s : Scale) (factor : ℚ) : TimeRange :=
  let center := s.invertS x
  let d2 := zoomDuration cfg (cur.endTime - cur.begin) factor
  let b0 := center - (center - cur.begin) / (cur.endTime - cur.begin) * d2
  let p := clampRigid cfg b0 (b0 + d2)
  ⟨p.1, p.2⟩

/-- The invariant every produced time range must satisfy (claim C5):
ordered endpoints, and duration at least `minDuration` when configured. -/
def rangeInvariant (cfg : InteractionConfig) (tr : TimeRange) : Prop :=
  tr.begin ≤ tr.endTime ∧
    ∀ m, cfg.minDuration = some m → m ≤ tr.endTime - tr.begin

end RTSC

namespace RTSC

/-! ## Helper lemmas: the width arrays, position by position -/

theorem padTo_length (l : List ℕ) (n : ℕ) : (padTo l n).length = max l.length n := by
  simp only [padTo, List.length_append, List.length_replicate]
  omega

theorem padTo_getD (l : List ℕ) (n i : ℕ) : (padTo l n).getD i 0 = l.getD i 0 := by
  simp only [padTo, List.getD_eq_getElem?_getD, List.getElem?_append]
  split
  · rfl
  · next h =>
    rw [List.getElem?_eq_none (l := l) (by omega), List.getElem?_replicate]
    split <;> rfl

theorem setMax_getD (l : List ℕ) (p : ℤ) (w : ℕ) (i : ℕ) :
    (setMax l p w).getD i 0 =
      if (i : ℤ) = p then max (l.getD i 0) w else l.getD i 0 := by
  by_cases hp : 0 ≤ p
  · rw [setMax, if_pos hp, List.getD_eq_getElem?_getD, List.getElem?_set]
    by_cases hip : (i : ℤ) = p
    · have hi : p.toNat = i := by omega
      have hlen : p.toNat < (padTo l (p.toNat + 1)).length := by
        rw [padTo_length]; omega
      rw [if_pos hi, if_pos hlen, Option.getD_some, if_pos hip, hi]
    · have hne : ¬ p.toNat = i := by omega
      rw [if_neg hne, if_neg hip, ← List.getD_eq_getElem?_getD, padTo_getD]
  · rw [setMax, if_neg hp, if_neg (by omega : ¬ (i : ℤ) = p)]

theorem setMax_length (l : List ℕ) (p : ℤ) (w : ℕ) :
    (setMax l p w).length =
      if 0 ≤ p then max l.length (p.toNat + 1) else l.length := by
  by_cases hp : 0 ≤ p
  · rw [setMax, if_pos hp, if_pos hp, List.length_set, padTo_length]
  · rw [setMax, if_neg hp, if_neg hp]

theorem leftAxes_length (its : List RowItem) : (leftAxes its).length = countLeft its := by
  induction its with
  | nil => rfl
  | cons hd tl ih =>
    cases hd with
    | charts => rfl
    | brush => simpa [leftAxes, countLeft] using ih
    | axis w v => simpa [leftAxes, countLeft] using ih

/-- The right-phase loop never touches the left width array. -/
theorem processRight_fst (its : List RowItem) : ∀ (n : ℤ) (L R : List ℕ),
    (processItems .right n its (L, R)).1 = L := by
  induction its with
  | nil => intro n L R; rfl
  | cons hd tl ih =>
    intro n L R
    cases hd with
    | charts => exact ih 0 L R
    | brush => exact ih n L R
    | axis w v => exact ih (n + 1) L (setMax R n (effWidth w v))

/-- Right-phase loop, position by position: starting at position `n`, the
axis widths of `its` land at positions `n`, `n+1`, …, each merged in by
maximum. -/
theorem processRight_snd_getD (its : List RowItem) :
    ∀ (h : countCharts its = 0) (n : ℕ) (L R : List ℕ) (i : ℕ),
    ((processItems .right (n : ℤ) its (L, R)).2).getD i 0 =
      max (R.getD i 0)
        (if n ≤ i then (afterCharts its).getD (i - n) 0 else 0) := by
  induction its with
  | nil =>
    intro _h n L R i
    have h0 : (afterCharts []).getD (i - n) 0 = 0 := rfl
    simp only [processItems]
    rw [h0, ite_self, Nat.max_zero]
  | cons hd tl ih =>
    intro h n L R i
    cases hd with
    | charts => simp [countCharts] at h
    | brush =>
      simp only [countCharts] at h
      simpa only [processItems, afterCharts] using ih h n L R i
    | axis w v =>
      simp only [countCharts] at h
      have hcast : ((n : ℤ) + 1) = ((n + 1 : ℕ) : ℤ) := by push_cast; ring
      simp only [processItems, hcast]
      rw [ih h (n + 1) L (setMax R (n : ℤ) (effWidth w v)) i]
      rw [setMax_getD]
      by_cases hin : i = n
      · subst hin
        simp only [if_pos rfl]
        have h1 : ¬ i + 1 ≤ i := by omega
        rw [if_neg h1, if_pos (le_refl i)]
        simp [afterCharts]
      · have hne : ¬ (i : ℤ) = (n : ℤ) := by omega
        rw [if_neg hne]
        by_cases hni : n ≤ i
        · have h1 : n + 1 ≤ i := by omega
          rw [if_pos h1, if_pos hni]
          have h2 : i - n = (i - (n + 1)) + 1 := by omega
          rw [h2]
          simp [afterCharts]
        · have h1 : ¬ n + 1 ≤ i := by omega
          rw [if_neg h1, if_neg hni]

theorem getD_append_singleton (l : List ℕ) (a : ℕ) (i : ℕ) :
    (l ++ [a]).getD i 0 =
      if i < l.length then l.getD i 0 else if i = l.length then a else 0 := by
  rw [List.getD_eq_getElem?_getD, List.getElem?_append]
  by_cases h : i < l.length
  · rw [if_pos h, if_pos h, ← List.getD_eq_getElem?_getD]
  · rw [if_neg h, if_neg h]
    by_cases h2 : i = l.length
    · have h3 : i - l.length = 0 := by omega
      rw [h3, List.getElem?_cons_zero, Option.getD_some, if_pos h2]
    · obtain ⟨k, hk⟩ : ∃ k, i - l.length = k + 1 := ⟨i - l.length - 1, by omega⟩
      rw [hk, List.getElem?_cons_succ, List.getElem?_nil, if_neg h2]
      rfl

/-- Right-phase loop: the resulting array length. -/
theorem processRight_snd_length (its : List RowItem) :
    ∀ (h : countCharts its = 0) (n : ℕ) (L R : List ℕ),
    ((processItems .right (n : ℤ) its (L, R)).2).length =
      if afterCharts its = [] then R.length
      else max R.length (n + (afterCharts its).length) := by
  induction its with
  | nil => intro h n L R; simp [processItems, afterCharts]
  | cons hd tl ih =>
    intro h n L R
    cases hd with
    | charts => simp [countCharts] at h
    | brush =>
      simp only [countCharts] at h
      simpa only [processItems, afterCharts] using ih h n L R
    | axis w v =>
      simp only [countCharts] at h
      have hcast : ((n : ℤ) + 1) = ((n + 1 : ℕ) : ℤ) := by push_cast; ring
      simp only [processItems, hcast]
      rw [ih h (n + 1) L (setMax R (n : ℤ) (effWidth w v))]
      have hlen : (setMax R (n : ℤ) (effWidth w v)).length = max R.length (n + 1) := by
        rw [setMax_length, if_pos (by omega : (0:ℤ) ≤ (n:ℤ)), Int.toNat_natCast]
      by_cases he : afterCharts tl = []
      · rw [if_pos he, hlen]
        have : ¬ afterCharts (RowItem.axis w v :: tl) = [] := by simp [afterCharts]
        rw [if_neg this]
        simp [afterCharts, he]
      · rw [if_neg he, hlen]
        have : ¬ afterCharts (RowItem.axis w v :: tl) = [] := by simp [afterCharts]
        rw [if_neg this]
        simp only [afterCharts, List.length_cons]
        omega

/-- Left-phase characterization of one row's accumulation (the row's
second pass starting at `pos = countLeft − 1`): left widths are merged in
reverse-declaration order (position 0 adjacent to the plot), right widths
in declaration order after the `<Charts>` tag. -/
theorem processLeft_char (its : List RowItem) :
    ∀ (h : countCharts its = 1) (L R : List ℕ),
    (∀ i, ((processItems .left ((countLeft its : ℤ) - 1) its (L, R)).1).getD i 0
        = max (L.getD i 0) ((leftAxes its).reverse.getD i 0))
    ∧ ((processItems .left ((countLeft its : ℤ) - 1) its (L, R)).1).length
        = max L.length (countLeft its)
    ∧ (∀ i, ((processItems .left ((countLeft its : ℤ) - 1) its (L, R)).2).getD i 0
        = max (R.getD i 0) ((rightAxes its).getD i 0))
    ∧ ((processItems .left ((countLeft its : ℤ) - 1) its (L, R)).2).length
        = max R.length (rightAxes its).length := by
  induction its with
  | nil => intro h; simp [countCharts] at h
  | cons hd tl ih =>
    intro h L R
    cases hd with
    | charts =>
      simp only [countCharts] at h
      have h0 : countCharts tl = 0 := by omega
      have hstep :
          processItems .left (((countLeft (RowItem.charts :: tl) : ℕ) : ℤ) - 1)
              (RowItem.charts :: tl) (L, R)
            = processItems .right (0 : ℤ) tl (L, R) := by
        simp only [processItems]
      have hfst := processRight_fst tl (0 : ℤ) L R
      have hgd := processRight_snd_getD tl h0 0 L R
      have hln := processRight_snd_length tl h0 0 L R
      simp only [Nat.cast_zero] at hgd hln
      refine ⟨fun i => ?_, ?_, fun i => ?_, ?_⟩
      · rw [hstep, hfst]
        simp [leftAxes]
      · rw [hstep, hfst]
        simp [countLeft]
      · rw [hstep, hgd i]
        simp [rightAxes]
      · rw [hstep, hln]
        by_cases he : afterCharts tl = []
        · rw [if_pos he]
          simp [rightAxes, he]
        · rw [if_neg he]
          simp [rightAxes]
    | brush =>
      simp only [countCharts] at h
      have hstep :
          processItems .left (((countLeft (RowItem.brush :: tl) : ℕ) : ℤ) - 1)
              (RowItem.brush :: tl) (L, R)
            = processItems .left (((countLeft tl : ℕ) : ℤ) - 1) tl (L, R) := by
        simp only [processItems, countLeft]
      obtain ⟨ih1, ih2, ih3, ih4⟩ := ih h L R
      refine ⟨fun i => ?_, ?_, fun i => ?_, ?_⟩
      · rw [hstep, ih1 i]
        simp only [leftAxes]
      · rw [hstep, ih2]
        simp only [countLeft]
      · rw [hstep, ih3 i]
        simp only [rightAxes]
      · rw [hstep, ih4]
        simp only [rightAxes]
    | axis w v =>
      simp only [countCharts] at h
      have hc : countLeft (RowItem.axis w v :: tl) = countLeft tl + 1 := rfl
      have hpos : ((countLeft (RowItem.axis w v :: tl) : ℕ) : ℤ) - 1
          = ((countLeft tl : ℕ) : ℤ) := by
        rw [hc]; push_cast; ring
      have hstep :
          processItems .left (((countLeft (RowItem.axis w v :: tl) : ℕ) : ℤ) - 1)
              (RowItem.axis w v :: tl) (L, R)
            = processItems .left (((countLeft tl : ℕ) : ℤ) - 1) tl
                (setMax L ((countLeft tl : ℕ) : ℤ) (effWidth w v), R) := by
        rw [hpos]
        simp only [processItems]
      obtain ⟨ih1, ih2, ih3, ih4⟩ :=
        ih h (setMax L ((countLeft tl : ℕ) : ℤ) (effWidth w v)) R
      have hrevlen : (leftAxes tl).reverse.length = countLeft tl := by
        rw [List.length_reverse, leftAxes_length]
      have hla : leftAxes (RowItem.axis w v :: tl)
          = effWidth w v :: leftAxes tl := rfl
      refine ⟨fun i => ?_, ?_, fun i => ?_, ?_⟩
      · rw [hstep, ih1 i, setMax_getD, hla, List.reverse_cons, getD_append_singleton,
          hrevlen]
        by_cases h1 : i < countLeft tl
        · rw [if_pos h1, if_neg (by omega : ¬ (i : ℤ) = (countLeft tl : ℤ))]
        · rw [if_neg h1]
          by_cases h2 : i = countLeft tl
          · rw [if_pos h2, if_pos (by omega : (i : ℤ) = (countLeft tl : ℤ)),
              List.getD_eq_default _ _ (by omega : (leftAxes tl).reverse.length ≤ i)]
            omega
          · rw [if_neg h2, if_neg (by omega : ¬ (i : ℤ) = (countLeft tl : ℤ)),
              List.getD_eq_default _ _ (by omega : (leftAxes tl).reverse.length ≤ i)]
      · rw [hstep, ih2, setMax_length,
          if_pos (by omega : (0 : ℤ) ≤ ((countLeft tl : ℕ) : ℤ)), Int.toNat_natCast, hc]
        omega
      · rw [hstep, ih3 i]
        simp only [rightAxes]
      · rw [hstep, ih4]
        simp only [rightAxes]

theorem maxOver_nil (f : List RowItem → ℕ) : maxOver [] f = 0 := rfl

theorem maxOver_cons (r : List RowItem) (rs : List (List RowItem))
    (f : List RowItem → ℕ) : maxOver (r :: rs) f = max (f r) (maxOver rs f) := rfl

/-- Whole-loop characterization: starting from accumulators `(L, R)`, a
valid row list yields arrays whose entries are the accumulated per-position
maxima and whose lengths are the maxima of the per-row column counts. -/
theorem computeAxisWidthsGo_char (rows : List (List RowItem)) :
    ∀ (h : ∀ r ∈ rows, countCharts r = 1) (L R : List ℕ),
    ∃ L' R', computeAxisWidthsGo (L, R) rows = .ok (L', R')
      ∧ (∀ i, L'.getD i 0 = max (L.getD i 0) (maxOver rows (fun r => rowLeftWidth r i)))
      ∧ L'.length = max L.length (maxOver rows countLeft)
      ∧ (∀ i, R'.getD i 0 = max (R.getD i 0) (maxOver rows (fun r => rowRightWidth r i)))
      ∧ R'.length = max R.length (maxOver rows (fun r => (rightAxes r).length)) := by
  induction rows with
  | nil =>
    intro _h L R
    refine ⟨L, R, rfl, fun i => ?_, ?_, fun i => ?_, ?_⟩ <;>
      simp [maxOver_nil]
  | cons row rest ih =>
    intro h L R
    have hrow : countCharts row = 1 := h row (List.mem_cons_self _ _)
    have hrest : ∀ r ∈ rest, countCharts r = 1 :=
      fun r hr => h r (List.mem_cons_of_mem _ hr)
    obtain ⟨p1, p2, p3, p4⟩ := processLeft_char row hrow L R
    have hstep : computeAxisWidthsGo (L, R) (row :: rest)
        = computeAxisWidthsGo (processRow (L, R) row) rest := by
      simp only [computeAxisWidthsGo]
      rw [if_neg (not_not_intro hrow)]
    obtain ⟨L', R', hok, q1, q2, q3, q4⟩ :=
      ih hrest (processRow (L, R) row).1 (processRow (L, R) row).2
    rw [Prod.mk.eta] at hok
    refine ⟨L', R', by rw [hstep, hok], fun i => ?_, ?_, fun i => ?_, ?_⟩
    · rw [q1 i, maxOver_cons]
      have : ((processRow (L, R) row).1).getD i 0
          = max (L.getD i 0) (rowLeftWidth row i) := p1 i
      rw [this]
      omega
    · rw [q2, maxOver_cons]
      have : ((processRow (L, R) row).1).length = max L.length (countLeft row) := p2
      rw [this]
      omega
    · rw [q3 i, maxOver_cons]
      have : ((processRow (L, R) row).2).getD i 0
          = max (R.getD i 0) (rowRightWidth row i) := p3 i
      rw [this]
      omega
    · rw [q4, maxOver_cons]
      have : ((processRow (L, R) row).2).length
          = max R.length (rightAxes row).length := p4
      rw [this]
      omega

/-- The width arrays computed for a valid row list: entry `i` is the
maximum over rows of the slot width at position `i`, and the length is the
maximum per-side column count. -/
theorem computeAxisWidths_char (rows : List (List RowItem))
    (h : ∀ r ∈ rows, countCharts r = 1) :
    ∃ L R, computeAxisWidths rows = .ok (L, R)
      ∧ (∀ i, L.getD i 0 = maxOver rows (fun r => rowLeftWidth r i))
      ∧ L.length = maxOver rows countLeft
      ∧ (∀ i, R.getD i 0 = maxOver rows (fun r => rowRightWidth r i))
      ∧ R.length = maxOver rows (fun r => (rightAxes r).length) := by
  obtain ⟨L, R, hok, a1, a2, a3, a4⟩ := computeAxisWidthsGo_char rows h [] []
  exact ⟨L, R, hok, fun i => by simpa using a1 i, by simpa using a2,
    fun i => by simpa using a3 i, by simpa using a4⟩

theorem list_sum_eq_sum_getD (l : List ℕ) :
    l.sum = ∑ i ∈ Finset.range l.length, l.getD i 0 := by
  induction l with
  | nil => simp
  | cons a t ih =>
    rw [List.sum_cons, List.length_cons, Finset.sum_range_succ']
    simp only [List.getD_cons_succ, List.getD_cons_zero]
    rw [← ih]
    omega

theorem foldrMax_perm {l l' : List ℕ} (h : l.Perm l') :
    l.foldr max 0 = l'.foldr max 0 := by
  induction h with
  | nil => rfl
  | cons x _h ih => simp only [List.foldr_cons, ih]
  | swap x y l =>
    simp only [List.foldr_cons]
    omega
  | trans _h1 _h2 ih1 ih2 => exact ih1.trans ih2

theorem maxOver_perm {rows rows' : List (List RowItem)}
    (h : rows.Perm rows') (f : List RowItem → ℕ) :
    maxOver rows f = maxOver rows' f :=
  foldrMax_perm (h.map f)

/-! ## Claims -/

/-- Claim C1: for every valid list of row descriptors the computed
`leftAxisWidths[pos]` (resp. `rightAxisWidths[pos]`) — slots indexed by
distance from the plot slot — is the maximum over all rows of that row's
slot width at position `pos` (0 when a row has no slot there), and the
`leftWidth`/`rightWidth` totals are the sums of those per-position maxima;
in particular the rows `[leftAxis(40), plot, rightAxis(30)]` and
`[leftAxis(25), leftAxis(40), plot]` yield `leftWidths = [40, 25]`,
`rightWidths = [30]`, total 65 and 30. -/
theorem claim_C1_axis_width_aggregation :
    (∀ rows : List (List RowItem), (∀ r ∈ rows, countCharts r = 1) →
      ∃ L R, computeAxisWidths rows = .ok (L, R)
        ∧ (∀ pos, L.getD pos 0 = maxOver rows (fun r => rowLeftWidth r pos))
        ∧ (∀ pos, R.getD pos 0 = maxOver rows (fun r => rowRightWidth r pos))
        ∧ L.sum = ∑ pos ∈ Finset.range L.length,
            maxOver rows (fun r => rowLeftWidth r pos)
        ∧ R.sum = ∑ pos ∈ Finset.range R.length,
            maxOver rows (fun r => rowRightWidth r pos))
    ∧ computeAxisWidths [demoRow1, demoRow2] = .ok ([40, 25], [30])
    ∧ ([40, 25] : List ℕ).sum = 65 ∧ ([30] : List ℕ).sum = 30 := by
  refine ⟨fun rows h => ?_, by rfl, by decide, by decide⟩
  obtain ⟨L, R, hok, a1, _a2, a3, _a4⟩ := computeAxisWidths_char rows h
  refine ⟨L, R, hok, a1, a3, ?_, ?_⟩
  · rw [list_sum_eq_sum_getD]
    exact Finset.sum_congr rfl fun i _ => a1 i
  · rw [list_sum_eq_sum_getD]
    exact Finset.sum_congr rfl fun i _ => a3 i

/-- Witness for C1: the general aggregation statement applied to the
spec's two scenario rows. -/
theorem claim_C1_axis_width_aggregation_witness :
    ∃ L R, computeAxisWidths [demoRow1, demoRow2] = .ok (L, R)
      ∧ (∀ pos, L.getD pos 0 = maxOver [demoRow1, demoRow2] (fun r => rowLeftWidth r pos))
      ∧ (∀ pos, R.getD pos 0 = maxOver [demoRow1, demoRow2] (fun r => rowRightWidth r pos))
      ∧ L.sum = ∑ pos ∈ Finset.range L.length,
          maxOver [demoRow1, demoRow2] (fun r => rowLeftWidth r pos)
      ∧ R.sum = ∑ pos ∈ Finset.range R.length,
          maxOver [demoRow1, demoRow2] (fun r => rowRightWidth r pos) :=
  claim_C1_axis_width_aggregation.1 [demoRow1, demoRow2] (by decide)

/-- Claim C7: for every valid row set, the computed width arrays (hence
also the `leftWidth`/`rightWidth` totals) are unchanged under any
permutation of the rows. -/
theorem claim_C7_row_order_stability (rows rows' : List (List RowItem))
    (hperm : rows.Perm rows') (h : ∀ r ∈ rows, countCharts r = 1) :
    computeAxisWidths rows = computeAxisWidths rows' := by
  have h' : ∀ r ∈ rows', countCharts r = 1 :=
    fun r hr => h r (hperm.mem_iff.mpr hr)
  obtain ⟨L1, R1, hok1, a1, a2, a3, a4⟩ := computeAxisWidths_char rows h
  obtain ⟨L2, R2, hok2, b1, b2, b3, b4⟩ := computeAxisWidths_char rows' h'
  have hL : L1 = L2 := by
    apply List.ext_getElem
    · rw [a2, b2]
      exact maxOver_perm hperm _
    · intro n h1 h2
      have e1 := a1 n
      have e2 := b1 n
      rw [List.getD_eq_getElem _ _ h1] at e1
      rw [List.getD_eq_getElem _ _ h2] at e2
      rw [e1, e2]
      exact maxOver_perm hperm _
  have hR : R1 = R2 := by
    apply List.ext_getElem
    · rw [a4, b4]
      exact maxOver_perm hperm _
    · intro n h1 h2
      have e1 := a3 n
      have e2 := b3 n
      rw [List.getD_eq_getElem _ _ h1] at e1
      rw [List.getD_eq_getElem _ _ h2] at e2
      rw [e1, e2]
      exact maxOver_perm hperm _
  rw [hok1, hok2, hL, hR]

/-- Witness for C7: swapping the spec's two scenario rows leaves the
computed width arrays unchanged. -/
theorem claim_C7_row_order_stability_witness :
    computeAxisWidths [demoRow1, demoRow2] = computeAxisWidths [demoRow2, demoRow1] :=
  claim_C7_row_order_stability [demoRow1, demoRow2] [demoRow2, demoRow1]
    (List.Perm.swap _ _ _) (by decide)

/-- Claim C2 counterexample: a row with two plot slots aborts the whole
layout pass (the `invariant` throw), so the sibling valid row does not
produce a layout result, contradicting "fatal for that row, not for the
whole layout pass". -/
theorem claim_C2_counterexample :
    computeAxisWidths
        [[RowItem.charts, RowItem.charts], [RowItem.axis (some 40) true, RowItem.charts]]
      = .error "ChartRow should have one and only one <Charts> tag within it"
    ∧ countCharts [RowItem.axis (some 40) true, RowItem.charts] = 1 :=
  ⟨by rfl, by decide⟩

/-- Claim C2 (amended): a row whose plot-slot count is zero or greater
than one makes the entire layout pass fail with the configuration error —
no row of that pass produces a layout result. -/
theorem claim_C2_invalid_row_aborts_pass (rows : List (List RowItem))
    (h : ∃ r ∈ rows, countCharts r ≠ 1) :
    computeAxisWidths rows
      = .error "ChartRow should have one and only one <Charts> tag within it" := by
  suffices hgo : ∀ acc, computeAxisWidthsGo acc rows
      = .error "ChartRow should have one and only one <Charts> tag within it" from
    hgo ([], [])
  induction rows with
  | nil => simp at h
  | cons row rest ih =>
    intro acc
    by_cases hb : countCharts row = 1
    · have hr : ∃ r ∈ rest, countCharts r ≠ 1 := by
        obtain ⟨r, hr, hne⟩ := h
        rcases List.mem_cons.mp hr with h1 | h1
        · exact absurd (h1 ▸ hb) hne
        · exact ⟨r, h1, hne⟩
      simp only [computeAxisWidthsGo]
      rw [if_neg (not_not_intro hb)]
      exact ih hr _
    · simp only [computeAxisWidthsGo]
      rw [if_pos hb]

/-- Witness for the amended C2: a concrete pass containing a two-plot row
errors out. -/
theorem claim_C2_invalid_row_aborts_pass_witness :
    computeAxisWidths [[RowItem.charts, RowItem.charts]]
      = .error "ChartRow should have one and only one <Charts> tag within it" :=
  claim_C2_invalid_row_aborts_pass [[RowItem.charts, RowItem.charts]]
    ⟨[RowItem.charts, RowItem.charts], by decide, by decide⟩

/-- Claim C3 counterexample: with a non-positive plot pixel width (and,
separately, an inverted time range, begin > end) the time-scale
construction still succeeds — no explicit error is raised, contradicting
the claim that exactly these cases must fail. -/
theorem claim_C3_counterexample :
    computeTimeScale (some ⟨0, 100⟩) (-5) false = .ok (mkTimeScale ⟨0, 100⟩ (-5))
    ∧ computeTimeScale (some ⟨100, 0⟩) 705 false = .ok (mkTimeScale ⟨100, 0⟩ 705) :=
  ⟨rfl, rfl⟩

/-- Claim C3 (amended): the time-scale construction fails with an explicit
error exactly when the time range is absent; a non-positive pixel width or
an inverted range (begin > end) is not detected and yields a (degenerate)
scale with no error. -/
theorem claim_C3_error_only_when_timerange_missing
    (otr : Option TimeRange) (w : ℚ) (u : Bool) :
    (∃ msg, computeTimeScale otr w u = .error msg) ↔ otr = none := by
  cases otr with
  | none =>
    exact ⟨fun _ => rfl,
      fun _ => ⟨"Invalid timerange passed to ChartContainer", rfl⟩⟩
  | some tr =>
    constructor
    · rintro ⟨msg, hmsg⟩
      simp [computeTimeScale] at hmsg
    · intro hcontra
      simp at hcontra

/-- Witness for the amended C3 at concrete inputs: a missing time range
errors; a present one (even with a degenerate width) does not. -/
theorem claim_C3_error_only_when_timerange_missing_witness :
    (∃ msg, computeTimeScale none 705 false = .error msg)
    ∧ ¬ ∃ msg, computeTimeScale (some ⟨0, 100000⟩) (-5) false = .error msg := by
  constructor
  · exact (claim_C3_error_only_when_timerange_missing none 705 false).mpr rfl
  · intro hex
    exact Option.some_ne_none _
      ((claim_C3_error_only_when_timerange_missing (some ⟨0, 100000⟩) (-5) false).mp hex)

/-- Claim C4: for every TimeRange with begin ≤ end and every pixelWidth
> 0, the constructed scale is a monotone linear map sending the domain
into [0, pixelWidth], and invert ∘ apply is the identity on the domain
(exact over ℚ, the model of "within floating-point tolerance"). -/
theorem claim_C4_timescale_roundtrip (tr : TimeRange) (w t : ℚ)
    (hbe : tr.begin ≤ tr.endTime) (hw : 0 < w)
    (ht1 : tr.begin ≤ t) (ht2 : t ≤ tr.endTime) :
    (∀ t', t' ≤ tr.endTime → t ≤ t' →
        (mkTimeScale tr w).applyS t ≤ (mkTimeScale tr w).applyS t')
    ∧ 0 ≤ (mkTimeScale tr w).applyS t
    ∧ (mkTimeScale tr w).applyS t ≤ w
    ∧ (mkTimeScale tr w).invertS ((mkTimeScale tr w).applyS t) = t := by
  have happly : ∀ u : ℚ, (mkTimeScale tr w).applyS u
      = (u - tr.begin) / (tr.endTime - tr.begin) * w := by
    intro u
    show (0 : ℚ) + (u - tr.begin) / (tr.endTime - tr.begin) * (w - 0)
      = (u - tr.begin) / (tr.endTime - tr.begin) * w
    ring
  have hinvert : ∀ x : ℚ, (mkTimeScale tr w).invertS x
      = tr.begin + x / w * (tr.endTime - tr.begin) := by
    intro x
    show tr.begin + (x - 0) / (w - 0) * (tr.endTime - tr.begin)
      = tr.begin + x / w * (tr.endTime - tr.begin)
    ring
  rcases eq_or_lt_of_le hbe with heq | hlt
  · have hteq : t = tr.begin := by linarith
    have hz : (mkTimeScale tr w).applyS t = 0 := by
      rw [happly, hteq, sub_self, zero_div, zero_mul]
    refine ⟨?_, ?_, ?_, ?_⟩
    · intro t' h1 h2
      have h3 : t' = t := by linarith
      rw [h3]
    · rw [hz]
    · rw [hz]
      exact le_of_lt hw
    · rw [hz, hinvert, zero_div, zero_mul, add_zero, hteq]
  · have hpos : 0 < tr.endTime - tr.begin := sub_pos.mpr hlt
    have hene : tr.endTime - tr.begin ≠ 0 := ne_of_gt hpos
    have hwne : w ≠ 0 := ne_of_gt hw
    refine ⟨?_, ?_, ?_, ?_⟩
    · intro t' h1 h2
      rw [happly, happly]
      have hdiv : (t - tr.begin) / (tr.endTime - tr.begin)
          ≤ (t' - tr.begin) / (tr.endTime - tr.begin) :=
        (div_le_div_iff_of_pos_right hpos).mpr (by linarith)
      exact mul_le_mul_of_nonneg_right hdiv (le_of_lt hw)
    · rw [happly]
      exact mul_nonneg (div_nonneg (by linarith) (le_of_lt hpos)) (le_of_lt hw)
    · rw [happly]
      have h1 : (t - tr.begin) / (tr.endTime - tr.begin) ≤ 1 :=
        (div_le_one hpos).mpr (by linarith)
      calc (t - tr.begin) / (tr.endTime - tr.begin) * w
          ≤ 1 * w := mul_le_mul_of_nonneg_right h1 (le_of_lt hw)
        _ = w := one_mul w
    · rw [happly, hinvert]
      field_simp
      ring

/-- Witness for C4: the scenario scale over TimeRange(0, 100000) with
pixel width 705, evaluated at t = 50000. -/
theorem claim_C4_timescale_roundtrip_witness :
    (∀ t', t' ≤ (⟨0, 100000⟩ : TimeRange).endTime → (50000 : ℚ) ≤ t' →
        (mkTimeScale ⟨0, 100000⟩ 705).applyS 50000
          ≤ (mkTimeScale ⟨0, 100000⟩ 705).applyS t')
    ∧ 0 ≤ (mkTimeScale ⟨0, 100000⟩ 705).applyS 50000
    ∧ (mkTimeScale ⟨0, 100000⟩ 705).applyS 50000 ≤ 705
    ∧ (mkTimeScale ⟨0, 100000⟩ 705).invertS
        ((mkTimeScale ⟨0, 100000⟩ 705).applyS 50000) = 50000 :=
  claim_C4_timescale_roundtrip ⟨0, 100000⟩ 705 50000
    (show (0 : ℚ) ≤ 100000 by norm_num) (by norm_num)
    (show (0 : ℚ) ≤ 50000 by norm_num) (show (50000 : ℚ) ≤ 100000 by norm_num)

/-- When both stages succeed, `renderLayout` returns exactly the record
built from the computed widths and scale. -/
theorem renderLayout_eq (otr : Option TimeRange) (wd pl pr : ℚ) (u : Bool)
    (rows : List (List RowItem)) (lws rws : List ℕ) (sc : Scale)
    (hax : computeAxisWidths rows = .ok (lws, rws))
    (hts : computeTimeScale otr (wd - lws.sum - rws.sum - pl - pr) u = .ok sc) :
    renderLayout otr wd pl pr u rows
      = .ok ⟨lws, rws, lws.sum, rws.sum, wd - lws.sum - rws.sum - pl - pr, sc⟩ := by
  simp only [renderLayout, hax, hts]

/-- Inversion: any successful layout's geometry satisfies the width
bookkeeping of `render`. -/
theorem renderLayout_ok_inv (otr : Option TimeRange) (wd pl pr : ℚ) (u : Bool)
    (rows : List (List RowItem)) (out : LayoutOutput)
    (hok : renderLayout otr wd pl pr u rows = .ok out) :
    out.leftWidth = out.leftAxisWidths.sum
    ∧ out.rightWidth = out.rightAxisWidths.sum
    ∧ out.timeAxisWidth = wd - out.leftWidth - out.rightWidth - pl - pr := by
  cases hax : computeAxisWidths rows with
  | error e =>
    simp only [renderLayout, hax] at hok
    exact Except.noConfusion hok
  | ok p =>
    obtain ⟨lws, rws⟩ := p
    cases hts : computeTimeScale otr (wd - lws.sum - rws.sum - pl - pr) u with
    | error e =>
      simp only [renderLayout, hax, hts] at hok
      exact Except.noConfusion hok
    | ok sc =>
      simp only [renderLayout, hax, hts] at hok
      have h2 : (⟨lws, rws, lws.sum, rws.sum,
          wd - lws.sum - rws.sum - pl - pr, sc⟩ : LayoutOutput) = out :=
        Except.ok.inj hok
      rw [← h2]
      exact ⟨rfl, rfl, rfl⟩

/-- Claim C6: the plot pixel width equals containerWidth − leftWidth −
rightWidth − horizontal padding; in particular the scenario (container
800, leftWidth 65, rightWidth 30, padding 0) yields pixel width 705 and
the scale over TimeRange(0, 100000) maps 50000 to 352.5 = 705/2. -/
theorem claim_C6_plot_pixel_width :
    (∀ (otr : Option TimeRange) (wd pl pr : ℚ) (u : Bool)
        (rows : List (List RowItem)) (out : LayoutOutput),
        renderLayout otr wd pl pr u rows = .ok out →
        out.timeAxisWidth = wd - out.leftWidth - out.rightWidth - pl - pr)
    ∧ (∃ out, renderLayout (some ⟨0, 100000⟩) 800 0 0 false [demoRow1, demoRow2]
          = .ok out
        ∧ out.leftWidth = 65 ∧ out.rightWidth = 30 ∧ out.timeAxisWidth = 705
        ∧ out.timeScale.applyS 50000 = 705 / 2) := by
  constructor
  · intro otr wd pl pr u rows out hok
    exact (renderLayout_ok_inv otr wd pl pr u rows out hok).2.2
  · have hsum1 : ([40, 25] : List ℕ).sum = 65 := rfl
    have hsum2 : ([30] : List ℕ).sum = 30 := rfl
    have hax : computeAxisWidths [demoRow1, demoRow2] = .ok ([40, 25], [30]) := rfl
    have hts : computeTimeScale (some ⟨0, 100000⟩)
        (800 - (([40, 25] : List ℕ).sum : ℚ) - (([30] : List ℕ).sum : ℚ) - 0 - 0) false
        = .ok (mkTimeScale ⟨0, 100000⟩
            (800 - (([40, 25] : List ℕ).sum : ℚ) - (([30] : List ℕ).sum : ℚ) - 0 - 0)) :=
      rfl
    have hw : (800 - (([40, 25] : List ℕ).sum : ℚ) - (([30] : List ℕ).sum : ℚ) - 0 - 0)
        = 705 := by
      rw [hsum1, hsum2]
      norm_num
    refine ⟨_, renderLayout_eq _ 800 0 0 false _ [40, 25] [30] _ hax hts,
      hsum1, hsum2, hw, ?_⟩
    show (mkTimeScale ⟨0, 100000⟩
        (800 - (([40, 25] : List ℕ).sum : ℚ) - (([30] : List ℕ).sum : ℚ) - 0 - 0)).applyS
      50000 = 705 / 2
    rw [hw]
    show (0 : ℚ) + (50000 - 0) / (100000 - 0) * (705 - 0) = 705 / 2
    norm_num

/-- Witness for C6: the general pixel-width equation applied to the
scenario layout obtained from the concrete part of the claim. -/
theorem claim_C6_plot_pixel_width_witness :
    ∃ out, renderLayout (some ⟨0, 100000⟩) 800 0 0 false [demoRow1, demoRow2] = .ok out
      ∧ out.timeAxisWidth = 800 - out.leftWidth - out.rightWidth - 0 - 0 := by
  obtain ⟨out, hok, _⟩ := claim_C6_plot_pixel_width.2
  exact ⟨out, hok,
    claim_C6_plot_pixel_width.1 (some ⟨0, 100000⟩) 800 0 0 false [demoRow1, demoRow2] out hok⟩

/-! ## Interaction-transition lemmas (spec-modelled) -/

/-- Rigid translation preserves the interval's duration. -/
theorem clampRigid_duration (cfg : InteractionConfig) (b e : ℚ) :
    (clampRigid cfg b e).2 - (clampRigid cfg b e).1 = e - b := by
  simp only [clampRigid]
  cases cfg.minTime with
  | none =>
    cases cfg.maxTime with
    | none => dsimp only
    | some mx => dsimp only; split_ifs <;> dsimp only <;> ring
  | some m =>
    cases cfg.maxTime with
    | none => dsimp only; split_ifs <;> dsimp only <;> ring
    | some mx => dsimp only; split_ifs <;> dsimp only <;> ring

theorem zoomDuration_nonneg (cfg : InteractionConfig) (d factor : ℚ)
    (hd : 0 ≤ d) (hf : 0 < factor) : 0 ≤ zoomDuration cfg d factor := by
  unfold zoomDuration
  cases cfg.minDuration with
  | none => exact mul_nonneg hd (le_of_lt hf)
  | some m => exact le_trans (mul_nonneg hd (le_of_lt hf)) (le_max_left _ _)

theorem zoomDuration_min (cfg : InteractionConfig) (d factor m : ℚ)
    (hm : cfg.minDuration = some m) : m ≤ zoomDuration cfg d factor := by
  unfold zoomDuration
  rw [hm]
  exact le_max_right _ _

/-- Panning preserves the anchor range's duration. -/
theorem panMove_duration (cfg : InteractionConfig) (anchor : TimeRange)
    (ax cx : ℚ) (s : Scale) :
    (panMove cfg anchor ax cx s).endTime - (panMove cfg anchor ax cx s).begin
      = anchor.endTime - anchor.begin := by
  show (clampRigid cfg (anchor.begin + (s.invertS ax - s.invertS cx))
        (anchor.endTime + (s.invertS ax - s.invertS cx))).2
      - (clampRigid cfg (anchor.begin + (s.invertS ax - s.invertS cx))
        (anchor.endTime + (s.invertS ax - s.invertS cx))).1
    = anchor.endTime - anchor.begin
  rw [clampRigid_duration]
  ring

/-- The wheel zoom's resulting duration is exactly the clamped candidate
duration. -/
theorem wheelZoom_duration (cfg : InteractionConfig) (cur : TimeRange)
    (x : ℚ) (s : Scale) (factor : ℚ) :
    (wheelZoom cfg cur x s factor).endTime - (wheelZoom cfg cur x s factor).begin
      = zoomDuration cfg (cur.endTime - cur.begin) factor := by
  show (clampRigid cfg
        (s.invertS x - (s.invertS x - cur.begin) / (cur.endTime - cur.begin)
            * zoomDuration cfg (cur.endTime - cur.begin) factor)
        (s.invertS x - (s.invertS x - cur.begin) / (cur.endTime - cur.begin)
            * zoomDuration cfg (cur.endTime - cur.begin) factor
          + zoomDuration cfg (cur.endTime - cur.begin) factor)).2
      - (clampRigid cfg
        (s.invertS x - (s.invertS x - cur.begin) / (cur.endTime - cur.begin)
            * zoomDuration cfg (cur.endTime - cur.begin) factor)
        (s.invertS x - (s.invertS x - cur.begin) / (cur.endTime - cur.begin)
            * zoomDuration cfg (cur.endTime - cur.begin) factor
          + zoomDuration cfg (cur.endTime - cur.begin) factor)).1
    = zoomDuration cfg (cur.endTime - cur.begin) factor
  rw [clampRigid_duration]
  ring

/-- Claim C5 counterexample (spec-modelled): a zoom-box commit whose
candidate duration (10) is below the configured minDuration (50) is a
no-op — the candidate is rejected, not corrected by clamping. -/
theorem claim_C5_counterexample :
    zoomBoxCommit ⟨some 50, none, none⟩ 10 20 ⟨0, 100, 0, 100⟩ 3 = none := by
  have hinv : ∀ y : ℚ, Scale.invertS ⟨0, 100, 0, 100⟩ y = y := by
    intro y
    show (0 : ℚ) + (y - 0) / (100 - 0) * (100 - 0) = y
    norm_num
  unfold zoomBoxCommit
  rw [if_neg (by rw [show |(20 : ℚ) - 10| = 10 by norm_num]; norm_num)]
  simp only [hinv]
  rw [if_pos (by rw [show max (10 : ℚ) 20 = 20 by norm_num,
    show min (10 : ℚ) 20 = 10 by norm_num]; norm_num)]

/-- Claim C5 (amended, spec-modelled): every time range produced by a pan
move, a committed zoom box, or a wheel zoom satisfies begin ≤ end and,
when minDuration is configured, duration ≥ minDuration.  Pan and wheel
candidates violating the bounds/duration are corrected by clamping, while
a zoom box below the drag threshold or below minDuration is rejected
(no-op) rather than clamped. -/
theorem claim_C5_produced_ranges_invariant (cfg : InteractionConfig) (s : Scale) :
    (∀ (anchor : TimeRange) (ax cx : ℚ), rangeInvariant cfg anchor →
        rangeInvariant cfg (panMove cfg anchor ax cx s))
    ∧ (∀ (ax cx th : ℚ) (r : TimeRange),
        zoomBoxCommit cfg ax cx s th = some r → rangeInvariant cfg r)
    ∧ (∀ (cur : TimeRange) (x factor : ℚ), 0 < factor →
        rangeInvariant cfg cur →
        rangeInvariant cfg (wheelZoom cfg cur x s factor)) := by
  refine ⟨?_, ?_, ?_⟩
  · rintro anchor ax cx ⟨hle, hdur⟩
    have hd := panMove_duration cfg anchor ax cx s
    refine ⟨by linarith, fun m hm => ?_⟩
    have := hdur m hm
    linarith
  · intro ax cx th r hr
    unfold zoomBoxCommit at hr
    split at hr
    · exact Option.noConfusion hr
    · cases hmd : cfg.minDuration with
      | some m =>
        rw [hmd] at hr
        dsimp only at hr
        split at hr
        · exact Option.noConfusion hr
        · next hge =>
          have hr2 := Option.some.inj hr
          refine ⟨?_, fun m' hm' => ?_⟩
          · rw [← hr2]
            exact min_le_max
          · have hmm : m' = m := by
              rw [hmd] at hm'
              exact (Option.some.inj hm').symm
            rw [← hr2, hmm]
            show m ≤ max (s.invertS ax) (s.invertS cx)
              - min (s.invertS ax) (s.invertS cx)
            linarith [not_lt.mp hge]
      | none =>
        rw [hmd] at hr
        dsimp only at hr
        have hr2 := Option.some.inj hr
        refine ⟨?_, fun m' hm' => ?_⟩
        · rw [← hr2]
          exact min_le_max
        · rw [hmd] at hm'
          exact absurd hm' (by simp)
  · rintro cur x factor hf ⟨hle, hdur⟩
    have hd := wheelZoom_duration cfg cur x s factor
    have hnn : 0 ≤ zoomDuration cfg (cur.endTime - cur.begin) factor :=
      zoomDuration_nonneg cfg _ _ (by linarith) hf
    refine ⟨by linarith, fun m hm => ?_⟩
    have := zoomDuration_min cfg (cur.endTime - cur.begin) factor m hm
    linarith

/-- Witness for C5: the pan invariant holds at a concrete configuration
and anchor range. -/
theorem claim_C5_produced_ranges_invariant_witness :
    rangeInvariant ⟨some 50, none, none⟩
      (panMove ⟨some 50, none, none⟩ ⟨0, 100⟩ 10 20 ⟨0, 100, 0, 100⟩) :=
  (claim_C5_produced_ranges_invariant ⟨some 50, none, none⟩ ⟨0, 100, 0, 100⟩).1
    ⟨0, 100⟩ 10 20
    ⟨show (0 : ℚ) ≤ 100 by norm_num, by
      intro m hm
      have hmm : m = 50 := (Option.some.inj (show some (50 : ℚ) = some m from hm)).symm
      rw [hmm]
      show (50 : ℚ) ≤ 100 - 0
      norm_num⟩

/-! ## Row offsets -/

theorem rowOffsetsGo_length (rows : List RowSpec) :
    ∀ y, (rowOffsetsGo y rows).length = rows.length := by
  induction rows with
  | nil => intro y; rfl
  | cons r rest ih =>
    intro y
    simp only [rowOffsetsGo, List.length_cons, ih]

theorem rowOffsetsGo_getD (rows : List RowSpec) :
    ∀ (y i : ℕ), i < rows.length →
    (rowOffsetsGo y rows).getD i 0
      = y + ∑ j ∈ Finset.range i,
          (if (rows.getD j ⟨0, false⟩).visible then (rows.getD j ⟨0, false⟩).height
           else 0) := by
  induction rows with
  | nil =>
    intro y i h
    simp at h
  | cons r rest ih =>
    intro y i h
    cases i with
    | zero => simp [rowOffsetsGo]
    | succ n =>
      simp only [rowOffsetsGo, List.getD_cons_succ]
      rw [ih _ n (by simpa using h), Finset.sum_range_succ']
      simp only [List.getD_cons_succ, List.getD_cons_zero]
      by_cases hv : r.visible
      · rw [if_pos hv, if_pos hv]
        omega
      · rw [if_neg hv, if_neg hv]
        omega

theorem totalHeight_go (rows : List RowSpec) :
    ∀ y, rows.foldl (fun y r => if r.visible then y + r.height else y) y
      = y + ∑ j ∈ Finset.range rows.length,
          (if (rows.getD j ⟨0, false⟩).visible then (rows.getD j ⟨0, false⟩).height
           else 0) := by
  induction rows with
  | nil => intro y; simp
  | cons r rest ih =>
    intro y
    rw [List.foldl_cons, ih, List.length_cons, Finset.sum_range_succ']
    simp only [List.getD_cons_succ, List.getD_cons_zero]
    by_cases hv : r.visible
    · rw [if_pos hv, if_pos hv]
      omega
    · rw [if_neg hv, if_neg hv]
      omega

/-- Claim C8: the vertical row offsets are the cumulative sums, starting
at 0, of each visible row's declared height in declaration order; an
invisible row consumes no vertical space but still occupies a slot in the
offsets sequence, and the total charts height is the sum of the visible
heights. -/
theorem claim_C8_row_offsets (rows : List RowSpec) :
    (rowOffsets rows).length = rows.length
    ∧ (∀ i, i < rows.length →
        (rowOffsets rows).getD i 0
          = ∑ j ∈ Finset.range i,
              (if (rows.getD j ⟨0, false⟩).visible then (rows.getD j ⟨0, false⟩).height
               else 0))
    ∧ totalHeight rows
        = ∑ j ∈ Finset.range rows.length,
            (if (rows.getD j ⟨0, false⟩).visible then (rows.getD j ⟨0, false⟩).height
             else 0) := by
  refine ⟨rowOffsetsGo_length rows 0, fun i hi => ?_, ?_⟩
  · rw [rowOffsets, rowOffsetsGo_getD rows 0 i hi, Nat.zero_add]
  · rw [totalHeight, totalHeight_go rows 0, Nat.zero_add]

/-- Witness for C8: three rows of heights 100, 50 (invisible), 70 — the
third row's offset is 100 (the invisible row contributes nothing). -/
theorem claim_C8_row_offsets_witness :
    (rowOffsets [⟨100, true⟩, ⟨50, false⟩, ⟨70, true⟩]).getD 2 0
      = ∑ j ∈ Finset.range 2,
          (if (([⟨100, true⟩, ⟨50, false⟩, ⟨70, true⟩] : List RowSpec).getD j
              ⟨0, false⟩).visible
           then (([⟨100, true⟩, ⟨50, false⟩, ⟨70, true⟩] : List RowSpec).getD j
              ⟨0, false⟩).height
           else 0) :=
  (claim_C8_row_offsets [⟨100, true⟩, ⟨50, false⟩, ⟨70, true⟩]).2.1 2 (by decide)

/-! ## Invisible and defaulted axis widths -/

theorem normWidth_countCharts (row : List RowItem) :
    countCharts (row.map normWidth) = countCharts row := by
  induction row with
  | nil => rfl
  | cons hd tl ih =>
    cases hd with
    | charts => simp only [List.map_cons, normWidth, countCharts, ih]
    | brush => simp only [List.map_cons, normWidth, countCharts, ih]
    | axis w v =>
      cases v <;> simp only [List.map_cons, normWidth, countCharts, ih]

theorem normWidth_countLeft (row : List RowItem) :
    countLeft (row.map normWidth) = countLeft row := by
  induction row with
  | nil => rfl
  | cons hd tl ih =>
    cases hd with
    | charts => simp only [List.map_cons, normWidth, countLeft]
    | brush => simp only [List.map_cons, normWidth, countLeft, ih]
    | axis w v =>
      cases v <;> simp only [List.map_cons, normWidth, countLeft, ih]

theorem normWidth_processItems (row : List RowItem) :
    ∀ (align : Side) (pos : ℤ) (acc : List ℕ × List ℕ),
    processItems align pos (row.map normWidth) acc = processItems align pos row acc := by
  induction row with
  | nil => intro align pos acc; rfl
  | cons hd tl ih =>
    intro align pos acc
    cases hd with
    | charts =>
      simp only [List.map_cons, normWidth, processItems]
      exact ih .right 0 acc
    | brush =>
      simp only [List.map_cons, normWidth, processItems]
      exact ih align pos acc
    | axis w v =>
      obtain ⟨L, R⟩ := acc
      cases v with
      | true =>
        simp only [List.map_cons, normWidth, processItems]
        cases align with
        | left => exact ih .left (pos - 1) _
        | right => exact ih .right (pos + 1) _
      | false =>
        have he : effWidth (none : Option ℕ) false = effWidth w false := rfl
        simp only [List.map_cons, normWidth, processItems, he]
        cases align with
        | left => exact ih .left (pos - 1) _
        | right => exact ih .right (pos + 1) _

theorem normWidth_computeAxisWidthsGo (rows : List (List RowItem)) :
    ∀ acc, computeAxisWidthsGo acc (rows.map (fun row => row.map normWidth))
      = computeAxisWidthsGo acc rows := by
  induction rows with
  | nil => intro acc; rfl
  | cons row rest ih =>
    intro acc
    simp only [List.map_cons, computeAxisWidthsGo, normWidth_countCharts]
    by_cases hb : countCharts row ≠ 1
    · rw [if_pos hb, if_pos hb]
    · rw [if_neg hb, if_neg hb]
      have hpr : processRow acc (row.map normWidth) = processRow acc row := by
        unfold processRow
        rw [normWidth_countLeft, normWidth_processItems]
      rw [hpr, ih]

/-- Claim C9: an invisible axis slot contributes width 0 to the
per-position aggregation regardless of its declared width (replacing every
invisible slot's declared width by "absent" never changes the computed
arrays), and a visible slot with no declared (or non-numeric) width
contributes the default 40. -/
theorem claim_C9_invisible_and_default_widths :
    (∀ rows : List (List RowItem),
        computeAxisWidths (rows.map (fun row => row.map normWidth))
          = computeAxisWidths rows)
    ∧ computeAxisWidths [[RowItem.axis none true, RowItem.charts]] = .ok ([40], [])
    ∧ computeAxisWidths [[RowItem.axis (some 97) false, RowItem.charts]] = .ok ([0], [])
    ∧ (∀ w, effWidth w false = 0) ∧ effWidth none true = 40 := by
  refine ⟨fun rows => normWidth_computeAxisWidthsGo rows ([], []), by rfl, by rfl,
    fun w => rfl, rfl⟩

/-! ## Hover tracker -/

/-- Claim C10: a tracker marker is produced exactly when a tracker
position is supplied and it lies inside the current time range. -/
theorem claim_C10_tracker_containment (tp : Option ℚ) (tr : TimeRange)
    (lw pl : ℚ) :
    (trackerOf tp tr lw pl).isSome
      ↔ ∃ t, tp = some t ∧ tr.containsT t = true := by
  cases tp with
  | none => simp [trackerOf]
  | some t =>
    by_cases hc : tr.containsT t
    · simp [trackerOf, hc]
    · simp [trackerOf, hc]

/-- Witness for C10 at concrete inputs: position 5 inside [0, 10]
produces a marker; position 20 outside produces none. -/
theorem claim_C10_tracker_containment_witness :
    ((trackerOf (some 5) ⟨0, 10⟩ 65 0).isSome
      ↔ ∃ t, (some (5 : ℚ)) = some t ∧ TimeRange.containsT ⟨0, 10⟩ t = true)
    ∧ ((trackerOf (some 20) ⟨0, 10⟩ 65 0).isSome
      ↔ ∃ t, (some (20 : ℚ)) = some t ∧ TimeRange.containsT ⟨0, 10⟩ t = true) :=
  ⟨claim_C10_tracker_containment (some 5) ⟨0, 10⟩ 65 0,
    claim_C10_tracker_containment (some 20) ⟨0, 10⟩ 65 0⟩

end RTSC
